/-
Verification of `src/resources/util/camera-angle-analysis.py`.

The script loads AprilTag poses, initializes a list of angle-bucket
accumulators (`total_tag_secs`), then for each trajectory sample and each
tag it
  * computes the bearing from the robot to the tag
    (`(tag_pose.translation() - sample_pose.translation()).angle()`),
  * skips the pair when `abs((tag_pose.rotation() - robot_to_tag_rotation)
    .radians()) < math.radians(90)`,
  * otherwise normalizes `(robot_to_tag_rotation - sample_pose.rotation())
    .radians()` into [0, 2*pi), buckets it by `math.radians(args.slice)`,
    and adds the elapsed time `dt` to that bucket when the index is below
    the bucket count,
and finally shades each bucket by `total_tag_secs[i] / max(total_tag_secs)`.

Angles are modelled as real numbers.  the wpimath type `Rotation2d` stores a
cosine/sine pair, so the `.radians()` of a sum or difference of rotations
is `atan2` of that pair, i.e. the real angle wrapped into (-pi, pi]; this
wrapping is `wrapToPi` below.  `Translation2d.angle()` is `atan2` of the
coordinate pair, modelled via `Complex.arg`.  Python exceptions
(`ZeroDivisionError` in the shading stage) are modelled with `Except`.

The bucket-count computation `math.floor(math.radians(360) /
math.radians(args.slice))` is additionally modelled in exact IEEE-754
binary64 arithmetic (`fl`, a round-to-nearest-even rounding of rationals
to 53 significant bits; CPython `math.radians(x)` computes `x * degToRad`
where `degToRad` is the binary64 constant nearest pi/180).
-/
import Mathlib

open Real

namespace CameraAngle

/-! ### IEEE-754 binary64 emulation over the rationals (bucket count only) -/

/-- Round a rational to the nearest integer, ties to even. -/
def roundNE (m : ℚ) : ℤ :=
  if m - ⌊m⌋ < 1/2 then ⌊m⌋
  else if 1/2 < m - ⌊m⌋ then ⌊m⌋ + 1
  else if ⌊m⌋ % 2 = 0 then ⌊m⌋ else ⌊m⌋ + 1

/-- Round a rational to the nearest IEEE-754 binary64 value: scale into the
binade [2^52, 2^53) using the base-2 logarithm of the magnitude, round the
53-bit significand to nearest (ties to even), and scale back.  The exponent
range is unbounded, which is exact for the magnitudes involved here. -/
def fl (q : ℚ) : ℚ :=
  if q = 0 then 0
  else
    (if q < 0 then -1 else 1) *
      (roundNE (|q| / 2 ^ (Int.log 2 |q| - 52)) : ℚ) * 2 ^ (Int.log 2 |q| - 52)

/-- The binary64 constant `degToRad` used by CPython `math.radians`:
the double nearest pi/180 (0x1.1df46a2529d39p-6). -/
def degToRad : ℚ := 5030569068109113 / 288230376151711744

/-- `math.radians(x)` on a binary64 input: one correctly rounded
multiplication by `degToRad`. -/
def radiansF (x : ℚ) : ℚ := fl (x * degToRad)

/-- `math.floor(math.radians(360) / math.radians(slice))` in binary64
arithmetic: the number of buckets the script creates, as evaluated by the
floating-point interpreter. -/
def num_bucketsF (slice : ℚ) : ℤ := ⌊fl (radiansF 360 / radiansF slice)⌋

lemma int_log_eq {q : ℚ} {k : ℤ} (h1 : (2 : ℚ) ^ k ≤ q) (h2 : q < (2 : ℚ) ^ (k + 1)) :
    Int.log 2 q = k := by
  have hq : 0 < q := lt_of_lt_of_le (by positivity) h1
  have h1' : ((2 : ℕ) : ℚ) ^ k ≤ q := by exact_mod_cast h1
  have h2' : q < ((2 : ℕ) : ℚ) ^ (k + 1) := by exact_mod_cast h2
  have ha : k ≤ Int.log 2 q := (Int.zpow_le_iff_le_log (by norm_num) hq).mp h1'
  have hb : Int.log 2 q < k + 1 := (Int.lt_zpow_iff_log_lt (by norm_num) hq).mp h2'
  omega

lemma fl_eval {q : ℚ} (k : ℤ) (h1 : (2 : ℚ) ^ k ≤ q) (h2 : q < (2 : ℚ) ^ (k + 1)) :
    fl q = (roundNE (q / 2 ^ (k - 52)) : ℚ) * 2 ^ (k - 52) := by
  have hq : 0 < q := lt_of_lt_of_le (by positivity) h1
  rw [fl, if_neg hq.ne', if_neg (not_lt.mpr hq.le), abs_of_pos hq,
    int_log_eq h1 h2, one_mul]

lemma roundNE_eval {m : ℚ} {f : ℤ} (hf : (f : ℚ) ≤ m ∧ m < f + 1) (hlt : m - f < 1/2) :
    roundNE m = f := by
  have hfl : ⌊m⌋ = f := Int.floor_eq_iff.mpr hf
  rw [roundNE, hfl, if_pos hlt]

lemma radiansF_360_eq : radiansF 360 = 7074237752028440 / 2 ^ 50 := by
  have h0 : (360 : ℚ) * degToRad = 226375608064910085 / 2 ^ 55 := by
    norm_num [degToRad]
  have h1 := fl_eval (q := (226375608064910085 : ℚ) / 2 ^ 55) 2 (by norm_num) (by norm_num)
  have h2 : roundNE (((226375608064910085 : ℚ) / 2 ^ 55) / 2 ^ ((2 : ℤ) - 52)) =
      7074237752028440 := by
    apply roundNE_eval (f := 7074237752028440) <;> norm_num
  rw [radiansF, h0, h1, h2]
  norm_num

lemma radiansF_10_eq : radiansF 10 = 6288211335136391 / 2 ^ 55 := by
  have h0 : (10 : ℚ) * degToRad = 25152845340545565 / 2 ^ 57 := by
    norm_num [degToRad]
  have h1 := fl_eval (q := (25152845340545565 : ℚ) / 2 ^ 57) (-3) (by norm_num) (by norm_num)
  have h2 : roundNE (((25152845340545565 : ℚ) / 2 ^ 57) / 2 ^ ((-3 : ℤ) - 52)) =
      6288211335136391 := by
    apply roundNE_eval (f := 6288211335136391) <;> norm_num
  rw [radiansF, h0, h1, h2]
  norm_num

lemma radiansF_30_eq : radiansF 30 = 4716158501352293 / 2 ^ 53 := by
  have h0 : (30 : ℚ) * degToRad = 75458536021636695 / 2 ^ 57 := by
    norm_num [degToRad]
  have h1 := fl_eval (q := (75458536021636695 : ℚ) / 2 ^ 57) (-1) (by norm_num) (by norm_num)
  have h2 : roundNE (((75458536021636695 : ℚ) / 2 ^ 57) / 2 ^ ((-1 : ℤ) - 52)) =
      4716158501352293 := by
    apply roundNE_eval (f := 4716158501352293) <;> norm_num
  rw [radiansF, h0, h1, h2]
  norm_num

lemma num_bucketsF_10 : num_bucketsF 10 = 36 := by
  rw [num_bucketsF, radiansF_360_eq, radiansF_10_eq]
  have h0 : ((7074237752028440 : ℚ) / 2 ^ 50) / (6288211335136391 / 2 ^ 55) =
      226375608064910080 / 6288211335136391 := by norm_num
  have h1 := fl_eval (q := (226375608064910080 : ℚ) / 6288211335136391) 5
    (by norm_num) (by norm_num)
  have h2 : roundNE (((226375608064910080 : ℚ) / 6288211335136391) / 2 ^ ((5 : ℤ) - 52)) =
      5066549580791808 := by
    apply roundNE_eval (f := 5066549580791808) <;> norm_num
  rw [h0, h1, h2]
  have h3 : (((5066549580791808 : ℤ) : ℚ)) * 2 ^ ((5 : ℤ) - 52) = 36 := by
    push_cast
    norm_num
  rw [h3]
  norm_num [Int.floor_eq_iff]

lemma num_bucketsF_30 : num_bucketsF 30 = 12 := by
  rw [num_bucketsF, radiansF_360_eq, radiansF_30_eq]
  have h0 : ((7074237752028440 : ℚ) / 2 ^ 50) / (4716158501352293 / 2 ^ 53) =
      56593902016227520 / 4716158501352293 := by norm_num
  have h1 := fl_eval (q := (56593902016227520 : ℚ) / 4716158501352293) 3
    (by norm_num) (by norm_num)
  have h2 : roundNE (((56593902016227520 : ℚ) / 4716158501352293) / 2 ^ ((3 : ℤ) - 52)) =
      6755399441055744 := by
    apply roundNE_eval (f := 6755399441055744) <;> norm_num
  rw [h0, h1, h2]
  have h3 : (((6755399441055744 : ℤ) : ℚ)) * 2 ^ ((3 : ℤ) - 52) = 12 := by
    push_cast
    norm_num
  rw [h3]
  norm_num [Int.floor_eq_iff]

/-! ### Real-angle model of the analysis -/

open scoped Classical

/-- Robot pose or tag pose: `Pose2d` from the field layout / trajectory,
projected to the plane (x, y, heading angle). -/
structure Pose2d where
  x : ℝ
  y : ℝ
  heading : ℝ

/-- One trajectory sample: the fields t, x, y and heading of one entry of the trajectory.samples array. -/
structure Sample where
  t : ℝ
  x : ℝ
  y : ℝ
  heading : ℝ

/-- `atan2 y x`, the angle of the vector (x, y) in (-pi, pi], via the
complex argument.  Models `Translation2d.angle()`, and the `.radians()` of
a `Rotation2d` built from a cosine/sine pair. -/
noncomputable def atan2 (y x : ℝ) : ℝ := Complex.arg ⟨x, y⟩

/-- Wrap an angle into (-pi, pi].  `Rotation2d` stores a cosine/sine pair,
so the `.radians()` of a difference of rotations is the real difference of
the angles wrapped into (-pi, pi]; this is that wrapping. -/
noncomputable def wrapToPi (θ : ℝ) : ℝ := θ - 2 * π * ⌈(θ - π) / (2 * π)⌉

/-- `math.radians(x)` in real arithmetic. -/
noncomputable def radians (x : ℝ) : ℝ := x * (π / 180)

/-- `robot_to_tag_rotation = (tag_pose.translation() -
sample_pose.translation()).angle()`. -/
noncomputable def robot_to_tag_rotation (s : Sample) (tag : Pose2d) : ℝ :=
  atan2 (tag.y - s.y) (tag.x - s.x)

/-- The skip condition of lines 53-55: `rotation_diff = tag_pose.rotation()
- robot_to_tag_rotation; if abs(rotation_diff.radians()) <
math.radians(90): continue`. -/
def hemisphere_skip (s : Sample) (tag : Pose2d) : Prop :=
  |wrapToPi (tag.heading - robot_to_tag_rotation s tag)| < radians 90

/-- Lines 58-60: `rotation_value = (robot_to_tag_rotation -
sample_pose.rotation()).radians(); if rotation_value < 0: rotation_value +=
math.pi * 2`. -/
noncomputable def rotation_value (s : Sample) (tag : Pose2d) : ℝ :=
  if wrapToPi (robot_to_tag_rotation s tag - s.heading) < 0 then
    wrapToPi (robot_to_tag_rotation s tag - s.heading) + 2 * π
  else
    wrapToPi (robot_to_tag_rotation s tag - s.heading)

/-- Line 61: `result_index = math.floor(rotation_value /
math.radians(args.slice))`. -/
noncomputable def result_index (slice : ℝ) (s : Sample) (tag : Pose2d) : ℤ :=
  ⌊rotation_value s tag / radians slice⌋

/-- Line 36: the number of accumulators created at startup,
`math.floor(math.radians(360) / math.radians(args.slice))`. -/
noncomputable def num_buckets (slice : ℝ) : ℤ := ⌊radians 360 / radians slice⌋

/-- Lines 35-37: `total_tag_secs`, one zero accumulator per bucket. -/
noncomputable def init_buckets (slice : ℝ) : List ℝ :=
  List.replicate (num_buckets slice).toNat 0

/-- The body of the tag loop (lines 49-63) for one sample/tag pair: skip on
the hemisphere test, otherwise add `dt` to bucket `result_index` when that
index is below the accumulator count.  the Python update
`total_tag_secs[result_index] += dt` is modelled for nonnegative indices
(`result_index_nonneg` below shows the index is never negative for a
positive slice). -/
noncomputable def process_tag (slice dt : ℝ) (s : Sample) (tag : Pose2d)
    (acc : List ℝ) : List ℝ :=
  if hemisphere_skip s tag then acc
  else if result_index slice s tag < (acc.length : ℤ) then
    acc.set (result_index slice s tag).toNat
      (acc.getD (result_index slice s tag).toNat 0 + dt)
  else acc

/-- The tag loop of line 49: fold `process_tag` over all tag poses. -/
noncomputable def process_sample (slice dt : ℝ) (s : Sample) (tags : List Pose2d)
    (acc : List ℝ) : List ℝ :=
  tags.foldl (fun b tag => process_tag slice dt s tag b) acc

/-- The sample loop of lines 43-63: dt is the sample timestamp minus
last_time, last_time becomes the sample timestamp, and then the tag loop
runs. -/
noncomputable def process_samples (slice : ℝ) (tags : List Pose2d) :
    List Sample → ℝ → List ℝ → List ℝ
  | [], _, acc => acc
  | s :: rest, last_time, acc =>
    process_samples slice tags rest s.t
      (process_sample slice (s.t - last_time) s tags acc)

/-- One trajectory file (lines 41-63): `last_time = 0`, then the sample
loop. -/
noncomputable def process_traj (slice : ℝ) (tags : List Pose2d)
    (samples : List Sample) (acc : List ℝ) : List ℝ :=
  process_samples slice tags samples 0 acc

/-- The trajectory loop of line 40: fold `process_traj` over the supplied
trajectory files. -/
noncomputable def process_all (slice : ℝ) (tags : List Pose2d)
    (trajs : List (List Sample)) (acc : List ℝ) : List ℝ :=
  trajs.foldl (fun acc samples => process_traj slice tags samples acc) acc

/-- The elapsed-time values `dt` attributed to each sample of a trajectory,
starting from a given `last_time`. -/
noncomputable def elapsed_times : ℝ → List Sample → List ℝ
  | _, [] => []
  | last, s :: rest => (s.t - last) :: elapsed_times s.t rest

/-- The timestamp of the last sample (or `last` when there is none). -/
noncomputable def final_time : ℝ → List Sample → ℝ
  | last, [] => last
  | _, s :: rest => final_time s.t rest

/-- The sample loop driven by an explicit list of (sample, dt) pairs
instead of the `last_time` state variable. -/
noncomputable def process_with_dts (slice : ℝ) (tags : List Pose2d) :
    List (Sample × ℝ) → List ℝ → List ℝ
  | [], acc => acc
  | (s, dt) :: rest, acc =>
    process_with_dts slice tags rest (process_sample slice dt s tags acc)

/-- The uncaught Python exceptions the rendering stage can raise. -/
inductive PyError where
  | valueError : PyError
  | zeroDivisionError : PyError

/-- Lines 73-79: `max_tag_secs = max(total_tag_secs)` (a `ValueError` on an
empty list) followed by `shade = total_tag_secs[i] / max_tag_secs` for each
bucket (a `ZeroDivisionError` when the maximum is zero).  Python runtime
errors are modelled as `Except.error`. -/
noncomputable def shades (acc : List ℝ) : Except PyError (List ℝ) :=
  match acc with
  | [] => Except.error PyError.valueError
  | b :: rest =>
    if rest.foldl max b = 0 then Except.error PyError.zeroDivisionError
    else Except.ok ((b :: rest).map fun x => x / rest.foldl max b)

/-- Modelled from the spec (section 8, the bucket-sum property): the sum,
over all sample/tag pairs not filtered by the hemisphere test, of the
sample elapsed time.  This is the total the spec claims the accumulators
sum to; it ignores the bounds guard of line 62. -/
noncomputable def hemisphere_only_total (tags : List Pose2d) : ℝ → List Sample → ℝ
  | _, [] => 0
  | last, s :: rest =>
    (tags.map fun tag => if hemisphere_skip s tag then 0 else s.t - last).sum
      + hemisphere_only_total tags s.t rest

/-- The sum, over all sample/tag pairs that pass the hemisphere test and
whose bucket index is below the bucket count, of the sample elapsed
time. -/
noncomputable def counted_total (slice : ℝ) (tags : List Pose2d) :
    ℝ → List Sample → ℝ
  | _, [] => 0
  | last, s :: rest =>
    (tags.map fun tag =>
        if ¬hemisphere_skip s tag ∧ result_index slice s tag < num_buckets slice
        then s.t - last else 0).sum
      + counted_total slice tags s.t rest

/-! ### Wrapping lemmas -/

lemma two_pi_pos : (0 : ℝ) < 2 * π := by positivity

lemma wrapToPi_le (θ : ℝ) : wrapToPi θ ≤ π := by
  rw [wrapToPi]
  have h := Int.le_ceil ((θ - π) / (2 * π))
  have h4 : θ - π ≤ (⌈(θ - π) / (2 * π)⌉ : ℝ) * (2 * π) := (div_le_iff two_pi_pos).mp h
  nlinarith [h4]

lemma neg_pi_lt_wrapToPi (θ : ℝ) : -π < wrapToPi θ := by
  rw [wrapToPi]
  have h := Int.ceil_lt_add_one ((θ - π) / (2 * π))
  have h3 : (⌈(θ - π) / (2 * π)⌉ : ℝ) - 1 < (θ - π) / (2 * π) := by linarith
  have h4 : ((⌈(θ - π) / (2 * π)⌉ : ℝ) - 1) * (2 * π) < θ - π :=
    (lt_div_iff two_pi_pos).mp h3
  nlinarith [h4]

lemma wrapToPi_eq_self {θ : ℝ} (h1 : -π < θ) (h2 : θ ≤ π) : wrapToPi θ = θ := by
  have hc : ⌈(θ - π) / (2 * π)⌉ = 0 := by
    rw [Int.ceil_eq_iff]
    constructor
    · push_cast
      rw [lt_div_iff two_pi_pos]
      nlinarith [pi_pos]
    · push_cast
      rw [div_le_iff two_pi_pos]
      nlinarith [pi_pos]
  rw [wrapToPi, hc]
  push_cast
  ring

lemma wrapToPi_add_int (θ : ℝ) (k : ℤ) : wrapToPi (θ + 2 * π * k) = wrapToPi θ := by
  have h3 : (θ + 2 * π * k - π) / (2 * π) = (θ - π) / (2 * π) + k := by
    field_simp
    ring
  rw [wrapToPi, wrapToPi, h3, Int.ceil_add_int]
  push_cast
  ring

lemma wrapToPi_eq_of {θ w : ℝ} (h1 : -π < w) (h2 : w ≤ π) {k : ℤ}
    (hk : θ = w + 2 * π * k) : wrapToPi θ = w := by
  rw [hk, wrapToPi_add_int, wrapToPi_eq_self h1 h2]

lemma wrapToPi_decomp (θ : ℝ) : ∃ k : ℤ, θ = wrapToPi θ + 2 * π * k := by
  refine ⟨⌈(θ - π) / (2 * π)⌉, ?_⟩
  rw [wrapToPi]
  ring

lemma wrapToPi_add_pi (θ : ℝ) :
    wrapToPi (θ + π) = if wrapToPi θ ≤ 0 then wrapToPi θ + π else wrapToPi θ - π := by
  obtain ⟨k, hk⟩ := wrapToPi_decomp θ
  have hb1 := neg_pi_lt_wrapToPi θ
  have hb2 := wrapToPi_le θ
  by_cases h : wrapToPi θ ≤ 0
  · rw [if_pos h]
    exact wrapToPi_eq_of (k := k) (by linarith [pi_pos]) (by linarith)
      (by linear_combination hk)
  · rw [if_neg h]
    push_neg at h
    exact wrapToPi_eq_of (k := k + 1) (by linarith) (by linarith [pi_pos])
      (by push_cast; linear_combination hk)

lemma radians_90 : radians 90 = π / 2 := by
  rw [radians]
  ring

lemma atan2_zero_of_nonneg {x : ℝ} (hx : 0 ≤ x) : atan2 0 x = 0 := by
  rw [atan2]
  have hx2 : (⟨x, 0⟩ : ℂ) = (x : ℂ) := rfl
  rw [hx2]
  exact Complex.arg_ofReal_of_nonneg hx

/-! ### Bounds on the normalized relative bearing and the index -/

lemma rotation_value_mem (s : Sample) (tag : Pose2d) :
    0 ≤ rotation_value s tag ∧ rotation_value s tag < 2 * π := by
  rw [rotation_value]
  have hb1 := neg_pi_lt_wrapToPi (robot_to_tag_rotation s tag - s.heading)
  have hb2 := wrapToPi_le (robot_to_tag_rotation s tag - s.heading)
  by_cases h : wrapToPi (robot_to_tag_rotation s tag - s.heading) < 0
  · rw [if_pos h]
    constructor <;> linarith [pi_pos]
  · rw [if_neg h]
    push_neg at h
    constructor <;> linarith [pi_pos]

lemma radians_pos {x : ℝ} (hx : 0 < x) : 0 < radians x := by
  rw [radians]
  positivity

lemma result_index_nonneg {slice : ℝ} (hs : 0 < slice) (s : Sample) (tag : Pose2d) :
    0 ≤ result_index slice s tag := by
  rw [result_index]
  exact Int.floor_nonneg.mpr
    (div_nonneg (rotation_value_mem s tag).1 (radians_pos hs).le)

lemma num_buckets_eq (slice : ℝ) :
    num_buckets slice = ⌊(360 / slice : ℝ)⌋ := by
  rw [num_buckets, radians, radians,
    mul_div_mul_right 360 slice (by positivity : (π / 180 : ℝ) ≠ 0)]

lemma num_buckets_nonneg {slice : ℝ} (hs : 0 < slice) : 0 ≤ num_buckets slice := by
  rw [num_buckets]
  exact Int.floor_nonneg.mpr (div_nonneg (by rw [radians]; positivity) (radians_pos hs).le)

lemma num_buckets_ten : num_buckets 10 = 36 := by
  rw [num_buckets_eq 10, show (360 / 10 : ℝ) = ((36 : ℤ) : ℝ) by norm_num,
    Int.floor_intCast]

lemma num_buckets_thirty : num_buckets 30 = 12 := by
  rw [num_buckets_eq 30, show (360 / 30 : ℝ) = ((12 : ℤ) : ℝ) by norm_num,
    Int.floor_intCast]

lemma num_buckets_seven : num_buckets 7 = 51 := by
  rw [num_buckets_eq 7, Int.floor_eq_iff]
  constructor <;> norm_num

/-! ### Structural lemmas about the processing loops -/

lemma process_samples_nil (slice : ℝ) (tags : List Pose2d) (last : ℝ) (acc : List ℝ) :
    process_samples slice tags [] last acc = acc := rfl

lemma process_samples_cons (slice : ℝ) (tags : List Pose2d) (s : Sample)
    (rest : List Sample) (last : ℝ) (acc : List ℝ) :
    process_samples slice tags (s :: rest) last acc =
      process_samples slice tags rest s.t
        (process_sample slice (s.t - last) s tags acc) := rfl

lemma process_tag_length (slice dt : ℝ) (s : Sample) (tag : Pose2d) (acc : List ℝ) :
    (process_tag slice dt s tag acc).length = acc.length := by
  rw [process_tag]
  split_ifs <;> simp

lemma process_sample_length (slice dt : ℝ) (s : Sample) (tags : List Pose2d)
    (acc : List ℝ) : (process_sample slice dt s tags acc).length = acc.length := by
  induction tags generalizing acc with
  | nil => rfl
  | cons tag ts ih =>
    rw [process_sample, List.foldl_cons]
    have h := ih (process_tag slice dt s tag acc)
    rw [process_sample] at h
    rw [h, process_tag_length]

lemma process_samples_length (slice : ℝ) (tags : List Pose2d) (samples : List Sample)
    (last : ℝ) (acc : List ℝ) :
    (process_samples slice tags samples last acc).length = acc.length := by
  induction samples generalizing last acc with
  | nil => rfl
  | cons s rest ih =>
    rw [process_samples_cons, ih, process_sample_length]

lemma process_all_length (slice : ℝ) (tags : List Pose2d) (trajs : List (List Sample))
    (acc : List ℝ) : (process_all slice tags trajs acc).length = acc.length := by
  induction trajs generalizing acc with
  | nil => rfl
  | cons tr trs ih =>
    rw [process_all, List.foldl_cons]
    have h := ih (process_traj slice tags tr acc)
    rw [process_all] at h
    rw [h, process_traj, process_samples_length]

lemma init_buckets_length (slice : ℝ) :
    (init_buckets slice).length = (num_buckets slice).toNat := by
  rw [init_buckets, List.length_replicate]

/-! ### Accumulator sums -/

lemma sum_set_getD : ∀ (l : List ℝ) (n : ℕ), n < l.length →
    ∀ dt : ℝ, (l.set n (l.getD n 0 + dt)).sum = l.sum + dt := by
  intro l
  induction l with
  | nil => intro n hn; simp at hn
  | cons a as ih =>
    intro n hn dt
    cases n with
    | zero => simp [List.getD_cons_zero]; ring
    | succ n =>
      have hn2 : n < as.length := by simpa using hn
      have hset : (a :: as).set (n + 1) ((a :: as).getD (n + 1) 0 + dt) =
          a :: as.set n (as.getD n 0 + dt) := rfl
      rw [hset, List.sum_cons, List.sum_cons, ih n hn2]
      ring

lemma process_tag_sum {slice : ℝ} (hs : 0 < slice) (dt : ℝ) (s : Sample) (tag : Pose2d)
    (acc : List ℝ) :
    (process_tag slice dt s tag acc).sum = acc.sum +
      (if ¬hemisphere_skip s tag ∧ result_index slice s tag < (acc.length : ℤ)
       then dt else 0) := by
  rw [process_tag]
  by_cases h1 : hemisphere_skip s tag
  · rw [if_pos h1, if_neg (by tauto)]
    ring
  · rw [if_neg h1]
    by_cases h2 : result_index slice s tag < (acc.length : ℤ)
    · rw [if_pos h2, if_pos ⟨h1, h2⟩]
      apply sum_set_getD
      have h0 := result_index_nonneg hs s tag
      omega
    · rw [if_neg h2, if_neg (by tauto)]
      ring

lemma process_sample_sum {slice : ℝ} (hs : 0 < slice) (dt : ℝ) (s : Sample) :
    ∀ (tags : List Pose2d) (acc : List ℝ),
    (process_sample slice dt s tags acc).sum = acc.sum +
      (tags.map fun tag =>
        if ¬hemisphere_skip s tag ∧ result_index slice s tag < (acc.length : ℤ)
        then dt else 0).sum := by
  intro tags
  induction tags with
  | nil => intro acc; simp [process_sample]
  | cons tag ts ih =>
    intro acc
    rw [process_sample, List.foldl_cons]
    have h := ih (process_tag slice dt s tag acc)
    rw [process_sample] at h
    rw [h, process_tag_length, process_tag_sum hs, List.map_cons, List.sum_cons]
    ring

lemma process_samples_sum {slice : ℝ} (hs : 0 < slice) (tags : List Pose2d) :
    ∀ (samples : List Sample) (last : ℝ) (acc : List ℝ),
    (acc.length : ℤ) = num_buckets slice →
    (process_samples slice tags samples last acc).sum =
      acc.sum + counted_total slice tags last samples := by
  intro samples
  induction samples with
  | nil => intro last acc _; simp [process_samples_nil, counted_total]
  | cons s rest ih =>
    intro last acc hlen
    rw [process_samples_cons]
    have hlen2 : ((process_sample slice (s.t - last) s tags acc).length : ℤ) =
        num_buckets slice := by rw [process_sample_length, hlen]
    rw [ih s.t _ hlen2, process_sample_sum hs, hlen, counted_total]
    ring

/-! ### Bound on the counted total -/

lemma counted_total_le (slice : ℝ) (tags : List Pose2d) :
    ∀ (samples : List Sample) (last : ℝ),
    List.Chain (· ≤ ·) last (samples.map Sample.t) →
    counted_total slice tags last samples ≤
      (final_time last samples - last) * tags.length := by
  intro samples
  induction samples with
  | nil => intro last _; simp [counted_total, final_time]
  | cons s rest ih =>
    intro last hchain
    rw [List.map_cons, List.chain_cons] at hchain
    obtain ⟨h1, h2⟩ := hchain
    have hterm : (tags.map fun tag =>
        if ¬hemisphere_skip s tag ∧ result_index slice s tag < num_buckets slice
        then s.t - last else 0).sum ≤ (s.t - last) * tags.length := by
      have hb : (tags.map fun tag =>
          if ¬hemisphere_skip s tag ∧ result_index slice s tag < num_buckets slice
          then s.t - last else 0).sum ≤ (tags.map fun _ => s.t - last).sum := by
        apply List.sum_le_sum
        intro tag _
        split_ifs
        · exact le_rfl
        · linarith
      have hc : (tags.map fun _ : Pose2d => s.t - last).sum =
          (s.t - last) * tags.length := by
        induction tags with
        | nil => simp
        | cons p ps ihp => simp [ihp]; ring
      linarith
    have ihr := ih s.t h2
    have hstep : counted_total slice tags last (s :: rest) =
        (tags.map fun tag =>
          if ¬hemisphere_skip s tag ∧ result_index slice s tag < num_buckets slice
          then s.t - last else 0).sum + counted_total slice tags s.t rest := rfl
    have hfin : final_time last (s :: rest) = final_time s.t rest := rfl
    rw [hstep, hfin]
    have : (s.t - last) * tags.length + (final_time s.t rest - s.t) * tags.length =
        (final_time s.t rest - last) * tags.length := by ring
    linarith

/-! ### Pointwise update lemmas -/

lemma getD_set_self : ∀ (l : List ℝ) (n : ℕ), n < l.length →
    ∀ v : ℝ, (l.set n v).getD n 0 = v := by
  intro l
  induction l with
  | nil => intro n hn; simp at hn
  | cons a as ih =>
    intro n hn v
    cases n with
    | zero => rfl
    | succ n =>
      have hn2 : n < as.length := by simpa using hn
      exact ih n hn2 v

lemma getD_set_ne : ∀ (l : List ℝ) (n j : ℕ), j ≠ n →
    ∀ v : ℝ, (l.set n v).getD j 0 = l.getD j 0 := by
  intro l
  induction l with
  | nil => intro n j _ v; rfl
  | cons a as ih =>
    intro n j hne v
    cases n with
    | zero =>
      cases j with
      | zero => exact absurd rfl hne
      | succ j => rfl
    | succ n =>
      cases j with
      | zero => rfl
      | succ j => exact ih n j (by omega) v

lemma process_all_cons (slice : ℝ) (tags : List Pose2d) (tr : List Sample)
    (trs : List (List Sample)) (acc : List ℝ) :
    process_all slice tags (tr :: trs) acc =
      process_all slice tags trs (process_traj slice tags tr acc) := rfl

lemma shades_cons (b : ℝ) (rest : List ℝ) :
    shades (b :: rest) =
      if rest.foldl max b = 0 then Except.error PyError.zeroDivisionError
      else Except.ok ((b :: rest).map fun x => x / rest.foldl max b) := rfl

/-! ### Concrete-scenario evaluation lemmas -/

lemma bearing_east {s : Sample} {tag : Pose2d} (hy : tag.y = s.y) (hx : s.x ≤ tag.x) :
    robot_to_tag_rotation s tag = 0 := by
  rw [robot_to_tag_rotation, hy, sub_self]
  exact atan2_zero_of_nonneg (by linarith)

lemma not_skip_of_pi {s : Sample} {tag : Pose2d} (hb : robot_to_tag_rotation s tag = 0)
    (hh : tag.heading = π) : ¬hemisphere_skip s tag := by
  rw [hemisphere_skip, hb, hh, sub_zero,
    wrapToPi_eq_self (by linarith [pi_pos]) le_rfl, radians_90, abs_of_pos pi_pos]
  linarith [pi_pos]

lemma rotation_value_zero {s : Sample} {tag : Pose2d}
    (hb : robot_to_tag_rotation s tag = 0) (hsh : s.heading = 0) :
    rotation_value s tag = 0 := by
  rw [rotation_value, hb, hsh, sub_zero,
    wrapToPi_eq_self (by linarith [pi_pos]) pi_pos.le, if_neg (lt_irrefl 0)]

lemma result_index_zero {slice : ℝ} {s : Sample} {tag : Pose2d}
    (h : rotation_value s tag = 0) : result_index slice s tag = 0 := by
  rw [result_index, h, zero_div, Int.floor_zero]

lemma process_tag_east_pi (slice dt : ℝ) {s : Sample} {tag : Pose2d} (acc : List ℝ)
    (hb : robot_to_tag_rotation s tag = 0) (hh : tag.heading = π) (hsh : s.heading = 0)
    (hlen : 0 < acc.length) :
    process_tag slice dt s tag acc = acc.set 0 (acc.getD 0 0 + dt) := by
  rw [process_tag, if_neg (not_skip_of_pi hb hh),
    result_index_zero (rotation_value_zero hb hsh), if_pos (by exact_mod_cast hlen)]
  rfl

/-! ### Claim theorems -/

/-- C1: a sample/marker pair is skipped by the hemisphere test (the
`continue` of line 55, which leaves every accumulator untouched) if and
only if the absolute value of the angular difference between the marker
heading and the bearing from the robot position to the marker
position, wrapped into (-pi, pi], is strictly less than 90 degrees
(pi/2 radians).  `w` is the wrapped difference, characterized as the
representative of the difference modulo 2*pi lying in (-pi, pi]. -/
theorem c1_hemisphere_skip_iff (s : Sample) (tag : Pose2d) (w : ℝ)
    (h1 : -π < w) (h2 : w ≤ π)
    (hk : ∃ k : ℤ, tag.heading - robot_to_tag_rotation s tag - w = 2 * π * k) :
    (hemisphere_skip s tag ↔ |w| < π / 2) ∧
    (∀ (slice dt : ℝ) (acc : List ℝ), hemisphere_skip s tag →
      process_tag slice dt s tag acc = acc) := by
  obtain ⟨k, hkk⟩ := hk
  have hw : wrapToPi (tag.heading - robot_to_tag_rotation s tag) = w :=
    wrapToPi_eq_of h1 h2 (k := k) (by linear_combination hkk)
  refine ⟨?_, fun slice dt acc hskip => by rw [process_tag, if_pos hskip]⟩
  rw [hemisphere_skip, hw, radians_90]

/-- C1 witness: robot at the origin, marker at (5, 0) facing away from the
robot (heading 0); the wrapped difference is 0 and the pair is skipped. -/
theorem c1_witness :
    (-π < (0 : ℝ) ∧ (0 : ℝ) ≤ π ∧
      ∃ k : ℤ, (⟨5, 0, 0⟩ : Pose2d).heading -
        robot_to_tag_rotation ⟨0, 0, 0, 0⟩ ⟨5, 0, 0⟩ - 0 = 2 * π * k) ∧
    (hemisphere_skip ⟨0, 0, 0, 0⟩ ⟨5, 0, 0⟩ ↔ |(0 : ℝ)| < π / 2) := by
  have hb : robot_to_tag_rotation ⟨0, 0, 0, 0⟩ ⟨5, 0, 0⟩ = 0 :=
    bearing_east rfl (show (0 : ℝ) ≤ 5 by norm_num)
  have hk : ∃ k : ℤ, (⟨5, 0, 0⟩ : Pose2d).heading -
      robot_to_tag_rotation ⟨0, 0, 0, 0⟩ ⟨5, 0, 0⟩ - 0 = 2 * π * k := by
    refine ⟨0, ?_⟩
    rw [hb]
    show (0 : ℝ) - 0 - 0 = 2 * π * ((0 : ℤ) : ℝ)
    push_cast
    ring
  exact ⟨⟨by linarith [pi_pos], pi_pos.le, hk⟩,
    (c1_hemisphere_skip_iff ⟨0, 0, 0, 0⟩ ⟨5, 0, 0⟩ 0 (by linarith [pi_pos])
      pi_pos.le hk).1⟩

/-- C3: for every sample/marker pair that passes the hemisphere test, the
normalized relative bearing lies in [0, 2*pi) at the moment the bucket
index is computed from it (and the bucket index is its floor quotient by
the slice size in radians). -/
theorem c3_rotation_value_range (slice : ℝ) (s : Sample) (tag : Pose2d)
    (hpass : ¬hemisphere_skip s tag) :
    (0 ≤ rotation_value s tag ∧ rotation_value s tag < 2 * π) ∧
    result_index slice s tag = ⌊rotation_value s tag / radians slice⌋ :=
  ⟨rotation_value_mem s tag, rfl⟩

/-- C3 witness: robot at the origin with heading 0, marker at (5, 0)
facing the robot; the pair passes the hemisphere test. -/
theorem c3_witness :
    ¬hemisphere_skip ⟨0, 0, 0, 0⟩ ⟨5, 0, π⟩ ∧
    (0 ≤ rotation_value ⟨0, 0, 0, 0⟩ ⟨5, 0, π⟩ ∧
      rotation_value ⟨0, 0, 0, 0⟩ ⟨5, 0, π⟩ < 2 * π) := by
  have hpass : ¬hemisphere_skip ⟨0, 0, 0, 0⟩ ⟨5, 0, π⟩ :=
    not_skip_of_pi (bearing_east rfl (show (0 : ℝ) ≤ 5 by norm_num)) rfl
  exact ⟨hpass, (c3_rotation_value_range 10 ⟨0, 0, 0, 0⟩ ⟨5, 0, π⟩ hpass).1⟩

/-- C4: the number of bucket accumulators created at startup is
`floor(radians(360) / radians(slice))` — 36 for slice = 10 and 12 for
slice = 30, both in exact real arithmetic (`num_buckets`) and in the
IEEE-754 binary64 arithmetic the interpreter actually performs
(`num_bucketsF`) — and the accumulator count is fixed before any
trajectory is processed: processing never changes the list length. -/
theorem c4_bucket_count :
    num_buckets 10 = 36 ∧ num_buckets 30 = 12 ∧
    num_bucketsF 10 = 36 ∧ num_bucketsF 30 = 12 ∧
    (init_buckets 10).length = 36 ∧ (init_buckets 30).length = 12 ∧
    ∀ (slice : ℝ) (tags : List Pose2d) (trajs : List (List Sample)),
      (process_all slice tags trajs (init_buckets slice)).length =
        (init_buckets slice).length := by
  refine ⟨num_buckets_ten, num_buckets_thirty, num_bucketsF_10, num_bucketsF_30,
    ?_, ?_, fun slice tags trajs => process_all_length slice tags trajs (init_buckets slice)⟩
  · rw [init_buckets_length, num_buckets_ten]
    rfl
  · rw [init_buckets_length, num_buckets_thirty]
    rfl

/-- C5: for a pair that passes the hemisphere test, when the computed
bucket index is at least the accumulator count the contribution is
silently dropped (the list is returned unchanged, no error), and when the
index is below the count exactly the accumulator at that index grows by
`dt` while every other entry is unchanged — in particular the index used
is strictly below the list length, so the list is never indexed out of
bounds. -/
theorem c5_result_index_guard (slice dt : ℝ) (s : Sample) (tag : Pose2d) (acc : List ℝ)
    (hs : 0 < slice) (hpass : ¬hemisphere_skip s tag) :
    ((acc.length : ℤ) ≤ result_index slice s tag →
      process_tag slice dt s tag acc = acc) ∧
    (result_index slice s tag < (acc.length : ℤ) →
      (result_index slice s tag).toNat < acc.length ∧
      (process_tag slice dt s tag acc).getD (result_index slice s tag).toNat 0 =
        acc.getD (result_index slice s tag).toNat 0 + dt ∧
      ∀ j : ℕ, j ≠ (result_index slice s tag).toNat →
        (process_tag slice dt s tag acc).getD j 0 = acc.getD j 0) := by
  have hnn := result_index_nonneg hs s tag
  constructor
  · intro h
    rw [process_tag, if_neg hpass, if_neg (not_lt.mpr h)]
  · intro h
    have htn : (result_index slice s tag).toNat < acc.length := by omega
    have hpt : process_tag slice dt s tag acc =
        acc.set (result_index slice s tag).toNat
          (acc.getD (result_index slice s tag).toNat 0 + dt) := by
      rw [process_tag, if_neg hpass, if_pos h]
    refine ⟨htn, ?_, ?_⟩
    · rw [hpt, getD_set_self _ _ htn]
    · intro j hj
      rw [hpt, getD_set_ne _ _ _ hj]

/-- C5 witness: slice 10, robot at the origin, marker at (5, 0) facing the
robot, a two-entry accumulator list; the in-bounds branch adds `dt` to the
selected accumulator. -/
theorem c5_witness :
    (0 : ℝ) < 10 ∧ ¬hemisphere_skip ⟨0, 0, 0, 0⟩ ⟨5, 0, π⟩ ∧
    (process_tag 10 1 ⟨0, 0, 0, 0⟩ ⟨5, 0, π⟩ [0, 0]).getD
        (result_index 10 ⟨0, 0, 0, 0⟩ ⟨5, 0, π⟩).toNat 0 =
      ([0, 0] : List ℝ).getD (result_index 10 ⟨0, 0, 0, 0⟩ ⟨5, 0, π⟩).toNat 0 + 1 := by
  have hb : robot_to_tag_rotation ⟨0, 0, 0, 0⟩ ⟨5, 0, π⟩ = 0 :=
    bearing_east rfl (show (0 : ℝ) ≤ 5 by norm_num)
  have hpass : ¬hemisphere_skip ⟨0, 0, 0, 0⟩ ⟨5, 0, π⟩ := not_skip_of_pi hb rfl
  have hidx : result_index 10 ⟨0, 0, 0, 0⟩ ⟨5, 0, π⟩ = 0 :=
    result_index_zero (rotation_value_zero hb rfl)
  refine ⟨by norm_num, hpass, ?_⟩
  exact ((c5_result_index_guard 10 1 ⟨0, 0, 0, 0⟩ ⟨5, 0, π⟩ [0, 0] (by norm_num)
    hpass).2 (by rw [hidx]; simp)).2.1

/-- C10: the hemisphere skip decision depends only on the sample
position and the marker pose, never on the robot heading: two samples
at the same (x, y) with different headings skip exactly the same
markers. -/
theorem c10_skip_heading_independent (s1 s2 : Sample) (tag : Pose2d)
    (hx : s1.x = s2.x) (hy : s1.y = s2.y) :
    (hemisphere_skip s1 tag ↔ hemisphere_skip s2 tag) := by
  rw [hemisphere_skip, hemisphere_skip, robot_to_tag_rotation, robot_to_tag_rotation,
    hx, hy]

/-- C10 witness: two samples at the origin with headings 0 and 1 (and
different timestamps) skip the marker at (5, 0) identically. -/
theorem c10_witness :
    (⟨0, 0, 0, 0⟩ : Sample).x = (⟨7, 0, 0, 1⟩ : Sample).x ∧
    (⟨0, 0, 0, 0⟩ : Sample).y = (⟨7, 0, 0, 1⟩ : Sample).y ∧
    (hemisphere_skip ⟨0, 0, 0, 0⟩ ⟨5, 0, π⟩ ↔ hemisphere_skip ⟨7, 0, 0, 1⟩ ⟨5, 0, π⟩) :=
  ⟨rfl, rfl, c10_skip_heading_independent ⟨0, 0, 0, 0⟩ ⟨7, 0, 0, 1⟩ ⟨5, 0, π⟩ rfl rfl⟩

/-- C6 counterexample: robot at the origin, marker at (5, 0) with heading
exactly pi/2, so the wrapped difference is exactly 90 degrees: the pair is
kept, and after adding pi (180 degrees) to the marker heading it is kept
as well — flipping the heading does not negate the test outcome at the
boundary. -/
theorem c6_cex :
    ¬(hemisphere_skip ⟨0, 0, 0, 0⟩ ⟨5, 0, π / 2⟩ ↔
      ¬hemisphere_skip ⟨0, 0, 0, 0⟩ ⟨5, 0, π / 2 + π⟩) := by
  have hb : robot_to_tag_rotation ⟨0, 0, 0, 0⟩ ⟨5, 0, π / 2⟩ = 0 :=
    bearing_east rfl (show (0 : ℝ) ≤ 5 by norm_num)
  have hb2 : robot_to_tag_rotation ⟨0, 0, 0, 0⟩ ⟨5, 0, π / 2 + π⟩ = 0 :=
    bearing_east rfl (show (0 : ℝ) ≤ 5 by norm_num)
  have h1 : ¬hemisphere_skip ⟨0, 0, 0, 0⟩ ⟨5, 0, π / 2⟩ := by
    rw [hemisphere_skip, hb]
    show ¬(|wrapToPi (π / 2 - 0)| < radians 90)
    rw [sub_zero, wrapToPi_eq_self (by linarith [pi_pos]) (by linarith [pi_pos]),
      radians_90, abs_of_pos (by positivity)]
    exact lt_irrefl _
  have h2 : ¬hemisphere_skip ⟨0, 0, 0, 0⟩ ⟨5, 0, π / 2 + π⟩ := by
    rw [hemisphere_skip, hb2]
    show ¬(|wrapToPi (π / 2 + π - 0)| < radians 90)
    rw [sub_zero, wrapToPi_add_pi,
      wrapToPi_eq_self (show -π < π / 2 by linarith [pi_pos]) (by linarith [pi_pos]),
      if_neg (not_le.mpr (by positivity)), radians_90,
      show π / 2 - π = -(π / 2) by ring, abs_neg, abs_of_pos (by positivity)]
    exact lt_irrefl _
  intro hiff
  exact h1 (hiff.mpr h2)

/-- C6 amended: whenever the wrapped difference between the marker
heading and the bearing from robot to marker is not exactly 90 degrees in
absolute value, adding pi (180 degrees) to the marker heading negates
the hemisphere test outcome. -/
theorem c6_heading_flip (s : Sample) (tag : Pose2d)
    (hne : |wrapToPi (tag.heading - robot_to_tag_rotation s tag)| ≠ radians 90) :
    (hemisphere_skip s tag ↔
      ¬hemisphere_skip s ⟨tag.x, tag.y, tag.heading + π⟩) := by
  have hb2 : robot_to_tag_rotation s ⟨tag.x, tag.y, tag.heading + π⟩ =
      robot_to_tag_rotation s tag := rfl
  rw [hemisphere_skip, hemisphere_skip, hb2]
  show (|wrapToPi (tag.heading - robot_to_tag_rotation s tag)| < radians 90 ↔
    ¬(|wrapToPi (tag.heading + π - robot_to_tag_rotation s tag)| < radians 90))
  rw [show tag.heading + π - robot_to_tag_rotation s tag =
    (tag.heading - robot_to_tag_rotation s tag) + π by ring, wrapToPi_add_pi]
  rw [radians_90] at hne ⊢
  set w := wrapToPi (tag.heading - robot_to_tag_rotation s tag) with hw
  have hl := neg_pi_lt_wrapToPi (tag.heading - robot_to_tag_rotation s tag)
  have hu := wrapToPi_le (tag.heading - robot_to_tag_rotation s tag)
  rw [← hw] at hl hu
  by_cases h : w ≤ 0
  · rw [if_pos h, abs_of_nonpos h, abs_of_nonneg (by linarith)]
    rw [abs_of_nonpos h] at hne
    constructor
    · intro hlt hcon
      linarith
    · intro hcon
      push_neg at hcon
      exact lt_of_le_of_ne (by linarith) hne
  · push_neg at h
    rw [if_neg (not_le.mpr h), abs_of_pos h, abs_of_nonpos (by linarith)]
    rw [abs_of_pos h] at hne
    constructor
    · intro hlt hcon
      linarith
    · intro hcon
      push_neg at hcon
      exact lt_of_le_of_ne (by linarith) hne

/-- C6 witness: marker at (5, 0) with heading 0 seen from the origin; the
wrapped difference is 0 (not the 90-degree boundary), and flipping the
heading by pi flips the skip outcome. -/
theorem c6_witness :
    |wrapToPi ((⟨5, 0, 0⟩ : Pose2d).heading -
      robot_to_tag_rotation ⟨0, 0, 0, 0⟩ ⟨5, 0, 0⟩)| ≠ radians 90 ∧
    (hemisphere_skip ⟨0, 0, 0, 0⟩ ⟨5, 0, 0⟩ ↔
      ¬hemisphere_skip ⟨0, 0, 0, 0⟩
        ⟨(⟨5, 0, 0⟩ : Pose2d).x, (⟨5, 0, 0⟩ : Pose2d).y,
          (⟨5, 0, 0⟩ : Pose2d).heading + π⟩) := by
  have hb : robot_to_tag_rotation ⟨0, 0, 0, 0⟩ ⟨5, 0, 0⟩ = 0 :=
    bearing_east rfl (show (0 : ℝ) ≤ 5 by norm_num)
  have hne : |wrapToPi ((⟨5, 0, 0⟩ : Pose2d).heading -
      robot_to_tag_rotation ⟨0, 0, 0, 0⟩ ⟨5, 0, 0⟩)| ≠ radians 90 := by
    rw [hb]
    show |wrapToPi ((0 : ℝ) - 0)| ≠ radians 90
    rw [sub_zero, wrapToPi_eq_self (by linarith [pi_pos]) pi_pos.le, abs_zero,
      radians_90]
    exact ne_of_lt (by positivity)
  exact ⟨hne, c6_heading_flip ⟨0, 0, 0, 0⟩ ⟨5, 0, 0⟩ hne⟩

lemma process_samples_eq_with_dts (slice : ℝ) (tags : List Pose2d) :
    ∀ (samples : List Sample) (last : ℝ) (acc : List ℝ),
    process_samples slice tags samples last acc =
      process_with_dts slice tags (samples.zip (elapsed_times last samples)) acc := by
  intro samples
  induction samples with
  | nil => intro last acc; rfl
  | cons s rest ih =>
    intro last acc
    rw [process_samples_cons]
    have hz : (s :: rest).zip (elapsed_times last (s :: rest)) =
        (s, s.t - last) :: rest.zip (elapsed_times s.t rest) := rfl
    rw [hz]
    have hwd : process_with_dts slice tags
        ((s, s.t - last) :: rest.zip (elapsed_times s.t rest)) acc =
        process_with_dts slice tags (rest.zip (elapsed_times s.t rest))
          (process_sample slice (s.t - last) s tags acc) := rfl
    rw [hwd, ih]

/-- C7: the `last_time` reference is re-initialized to zero at the start
of every trajectory file: the elapsed times used for a trajectory are
`elapsed_times 0` of its own samples regardless of any previously
processed trajectories, and the elapsed value attributed to the first
sample is that sample own timestamp. -/
theorem c7_first_sample_dt (slice : ℝ) (tags : List Pose2d)
    (prev : List (List Sample)) (s : Sample) (rest : List Sample) (acc : List ℝ) :
    process_all slice tags (prev ++ [s :: rest]) acc =
      process_with_dts slice tags
        ((s :: rest).zip (elapsed_times 0 (s :: rest)))
        (process_all slice tags prev acc) ∧
    (elapsed_times 0 (s :: rest)).head? = some s.t := by
  constructor
  · rw [process_all, List.foldl_append, List.foldl_cons, List.foldl_nil]
    exact process_samples_eq_with_dts slice tags (s :: rest) 0 _
  · show some (s.t - 0) = some s.t
    rw [sub_zero]

/-- C8: with slice 10, one trajectory with samples (t = 0, origin,
heading 0) and (t = 1, origin, heading 0) against a single marker at
(5, 0) with heading pi leaves bucket 0 holding exactly 1 and every other
bucket holding 0. -/
theorem c8_example_two_samples :
    process_traj 10 [⟨5, 0, π⟩] [⟨0, 0, 0, 0⟩, ⟨1, 0, 0, 0⟩] (init_buckets 10) =
      (1 : ℝ) :: List.replicate 35 0 := by
  have hb0 : robot_to_tag_rotation ⟨0, 0, 0, 0⟩ ⟨5, 0, π⟩ = 0 :=
    bearing_east rfl (show (0 : ℝ) ≤ 5 by norm_num)
  have hb1 : robot_to_tag_rotation ⟨1, 0, 0, 0⟩ ⟨5, 0, π⟩ = 0 :=
    bearing_east rfl (show (0 : ℝ) ≤ 5 by norm_num)
  have hinit : init_buckets 10 = (0 : ℝ) :: List.replicate 35 0 := by
    rw [init_buckets, num_buckets_ten]
    rfl
  have step1 : process_sample 10 ((⟨0, 0, 0, 0⟩ : Sample).t - 0) ⟨0, 0, 0, 0⟩
      [⟨5, 0, π⟩] (init_buckets 10) = (0 : ℝ) :: List.replicate 35 0 := by
    rw [hinit]
    have hone : process_sample 10 ((⟨0, 0, 0, 0⟩ : Sample).t - 0) ⟨0, 0, 0, 0⟩
        [⟨5, 0, π⟩] ((0 : ℝ) :: List.replicate 35 0) =
        process_tag 10 ((⟨0, 0, 0, 0⟩ : Sample).t - 0) ⟨0, 0, 0, 0⟩ ⟨5, 0, π⟩
          ((0 : ℝ) :: List.replicate 35 0) := rfl
    rw [hone, process_tag_east_pi _ _ _ hb0 rfl rfl (by simp)]
    show ((0 : ℝ) + ((0 : ℝ) - 0)) :: List.replicate 35 0 =
      (0 : ℝ) :: List.replicate 35 0
    norm_num
  have step2 : process_sample 10 ((⟨1, 0, 0, 0⟩ : Sample).t - (⟨0, 0, 0, 0⟩ : Sample).t)
      ⟨1, 0, 0, 0⟩ [⟨5, 0, π⟩] ((0 : ℝ) :: List.replicate 35 0) =
      (1 : ℝ) :: List.replicate 35 0 := by
    have hone : process_sample 10 ((⟨1, 0, 0, 0⟩ : Sample).t - (⟨0, 0, 0, 0⟩ : Sample).t)
        ⟨1, 0, 0, 0⟩ [⟨5, 0, π⟩] ((0 : ℝ) :: List.replicate 35 0) =
        process_tag 10 ((⟨1, 0, 0, 0⟩ : Sample).t - (⟨0, 0, 0, 0⟩ : Sample).t)
          ⟨1, 0, 0, 0⟩ ⟨5, 0, π⟩ ((0 : ℝ) :: List.replicate 35 0) := rfl
    rw [hone, process_tag_east_pi _ _ _ hb1 rfl rfl (by simp)]
    show ((0 : ℝ) + ((1 : ℝ) - 0)) :: List.replicate 35 0 =
      (1 : ℝ) :: List.replicate 35 0
    norm_num
  rw [process_traj, process_samples_cons, process_samples_cons, process_samples_nil,
    step1, step2]

/-- C2 counterexample: slice 7 (so 51 buckets), robot at the origin with
heading pi/180 and one sample at t = 1, marker at (5, 0) with heading pi.
The pair passes the hemisphere test (contributing 1 to the spec
hemisphere-only sum) but its bucket index is 51, equal to the bucket
count, so the bounds guard of line 62 drops the contribution and the
accumulators sum to 0, not 1. -/
theorem c2_cex :
    (process_traj 7 [⟨5, 0, π⟩] [⟨1, 0, 0, π / 180⟩] (init_buckets 7)).sum ≠
      hemisphere_only_total [⟨5, 0, π⟩] 0 [⟨1, 0, 0, π / 180⟩] := by
  have hb : robot_to_tag_rotation ⟨1, 0, 0, π / 180⟩ ⟨5, 0, π⟩ = 0 :=
    bearing_east rfl (show (0 : ℝ) ≤ 5 by norm_num)
  have hpass : ¬hemisphere_skip ⟨1, 0, 0, π / 180⟩ ⟨5, 0, π⟩ := not_skip_of_pi hb rfl
  have hrv : rotation_value ⟨1, 0, 0, π / 180⟩ ⟨5, 0, π⟩ = -(π / 180) + 2 * π := by
    rw [rotation_value, hb]
    show (if wrapToPi ((0 : ℝ) - π / 180) < 0 then wrapToPi ((0 : ℝ) - π / 180) + 2 * π
      else wrapToPi ((0 : ℝ) - π / 180)) = -(π / 180) + 2 * π
    rw [zero_sub, wrapToPi_eq_self (by linarith [pi_pos]) (by linarith [pi_pos]),
      if_pos (by linarith [pi_pos])]
  have hidx : result_index 7 ⟨1, 0, 0, π / 180⟩ ⟨5, 0, π⟩ = 51 := by
    rw [result_index, hrv, radians]
    have harg : (-(π / 180) + 2 * π) / (7 * (π / 180)) = 359 / 7 := by
      have hpi := Real.pi_ne_zero
      field_simp
      ring
    rw [harg, Int.floor_eq_iff]
    constructor <;> norm_num
  have hinit : init_buckets 7 = List.replicate 51 (0 : ℝ) := by
    rw [init_buckets, num_buckets_seven]
    rfl
  have hguard : ¬(result_index 7 ⟨1, 0, 0, π / 180⟩ ⟨5, 0, π⟩ <
      ((List.replicate 51 (0 : ℝ)).length : ℤ)) := by
    rw [hidx]
    simp
  have hproc : process_traj 7 [⟨5, 0, π⟩] [⟨1, 0, 0, π / 180⟩] (init_buckets 7) =
      List.replicate 51 (0 : ℝ) := by
    rw [process_traj, process_samples_cons, process_samples_nil, hinit]
    show process_tag 7 ((⟨1, 0, 0, π / 180⟩ : Sample).t - 0) ⟨1, 0, 0, π / 180⟩
      ⟨5, 0, π⟩ (List.replicate 51 (0 : ℝ)) = List.replicate 51 (0 : ℝ)
    rw [process_tag, if_neg hpass, if_neg hguard]
  have hR : hemisphere_only_total [⟨5, 0, π⟩] 0 [⟨1, 0, 0, π / 180⟩] = 1 := by
    have e1 : hemisphere_only_total [⟨5, 0, π⟩] 0 [⟨1, 0, 0, π / 180⟩] =
        (([⟨5, 0, π⟩] : List Pose2d).map fun tag =>
          if hemisphere_skip ⟨1, 0, 0, π / 180⟩ tag then 0 else (1 : ℝ) - 0).sum + 0 :=
      rfl
    rw [e1, List.map_cons, List.map_nil, List.sum_cons, List.sum_nil, if_neg hpass]
    norm_num
  have hL : (List.replicate 51 (0 : ℝ)).sum = 0 := by simp
  rw [hproc, hR, hL]
  norm_num

/-- C2 amended: for a positive slice, after processing one trajectory from
the all-zero accumulators the sum of the buckets equals the sum, over
every sample/marker pair that passes the hemisphere test AND whose bucket
index is below the bucket count, of that sample elapsed time; and for
nonnegative, non-decreasing timestamps the total never exceeds the final
timestamp times the number of markers. -/
theorem c2_bucket_sum (slice : ℝ) (tags : List Pose2d) (samples : List Sample)
    (hs : 0 < slice) :
    (process_traj slice tags samples (init_buckets slice)).sum =
      counted_total slice tags 0 samples ∧
    (List.Chain (· ≤ ·) 0 (samples.map Sample.t) →
      (process_traj slice tags samples (init_buckets slice)).sum ≤
        final_time 0 samples * tags.length) := by
  have hlen : ((init_buckets slice).length : ℤ) = num_buckets slice := by
    rw [init_buckets_length]
    exact Int.toNat_of_nonneg (num_buckets_nonneg hs)
  have hsum0 : (init_buckets slice).sum = 0 := by
    rw [init_buckets]
    simp
  have h1 : (process_traj slice tags samples (init_buckets slice)).sum =
      counted_total slice tags 0 samples := by
    rw [process_traj, process_samples_sum hs tags samples 0 _ hlen, hsum0, zero_add]
  refine ⟨h1, fun hchain => ?_⟩
  have h2 := counted_total_le slice tags samples 0 hchain
  rw [sub_zero] at h2
  rw [h1]
  exact h2

/-- C2 witness: slice 10, one marker at (5, 0) facing the robot, one
sample at t = 1; the bucket sum equals the counted total and is bounded by
the final timestamp times the marker count. -/
theorem c2_witness :
    (0 : ℝ) < 10 ∧
    (process_traj 10 [⟨5, 0, π⟩] [⟨1, 0, 0, 0⟩] (init_buckets 10)).sum =
      counted_total 10 [⟨5, 0, π⟩] 0 [⟨1, 0, 0, 0⟩] ∧
    (process_traj 10 [⟨5, 0, π⟩] [⟨1, 0, 0, 0⟩] (init_buckets 10)).sum ≤
      final_time 0 [⟨1, 0, 0, 0⟩] * ([⟨5, 0, π⟩] : List Pose2d).length := by
  have h := c2_bucket_sum 10 [⟨5, 0, π⟩] [⟨1, 0, 0, 0⟩] (by norm_num)
  have hchain : List.Chain (· ≤ ·) (0 : ℝ)
      (([⟨1, 0, 0, 0⟩] : List Sample).map Sample.t) := by
    rw [List.map_cons, List.map_nil]
    exact List.chain_cons.mpr ⟨(by norm_num : (0 : ℝ) ≤ 1), List.Chain.nil⟩
  exact ⟨by norm_num, h.1, h.2 hchain⟩

/-- C9: when every supplied trajectory has an empty sample list (in
particular when none is supplied at all) the accumulators remain the
all-zero initial buckets, and the shading stage then divides by the
maximum bucket value 0, raising an uncaught `ZeroDivisionError` that
aborts the program before the plot is shown. -/
theorem c9_all_zero_shades (slice : ℝ) (tags : List Pose2d)
    (trajs : List (List Sample)) (hempty : ∀ tr ∈ trajs, tr = []) :
    process_all slice tags trajs (init_buckets slice) = init_buckets slice ∧
    (init_buckets slice ≠ [] →
      shades (process_all slice tags trajs (init_buckets slice)) =
        Except.error PyError.zeroDivisionError) := by
  have hmax : ∀ n : ℕ, (List.replicate n (0 : ℝ)).foldl max 0 = 0 := by
    intro n
    induction n with
    | zero => rfl
    | succ k ihk =>
      rw [List.replicate_succ, List.foldl_cons, max_self]
      exact ihk
  have hfix : ∀ (ts : List (List Sample)), (∀ tr ∈ ts, tr = []) →
      ∀ acc : List ℝ, process_all slice tags ts acc = acc := by
    intro ts
    induction ts with
    | nil => intro _ acc; rfl
    | cons tr trs ih =>
      intro h acc
      have htr : tr = [] := h tr (List.mem_cons_self tr trs)
      rw [process_all_cons, htr]
      have h2 : process_traj slice tags [] acc = acc := rfl
      rw [h2]
      exact ih (fun u hu => h u (List.mem_cons_of_mem tr hu)) acc
  have h1 := hfix trajs hempty (init_buckets slice)
  refine ⟨h1, fun hne => ?_⟩
  rw [h1]
  rw [init_buckets] at hne ⊢
  cases hcase : (num_buckets slice).toNat with
  | zero =>
    rw [hcase] at hne
    exact absurd rfl hne
  | succ m =>
    rw [List.replicate_succ, shades_cons, if_pos (hmax m)]

/-- C9 witness: slice 10 with a single empty trajectory: the shading stage
raises the division-by-zero error. -/
theorem c9_witness :
    (∀ tr ∈ ([[]] : List (List Sample)), tr = []) ∧
    shades (process_all 10 [] [[]] (init_buckets 10)) =
      Except.error PyError.zeroDivisionError := by
  have hempty : ∀ tr ∈ ([[]] : List (List Sample)), tr = [] := by
    intro tr htr
    simpa using htr
  have hne : init_buckets 10 ≠ [] := by
    have hlen : (init_buckets 10).length = 36 := by
      rw [init_buckets_length, num_buckets_ten]
      rfl
    intro hnil
    rw [hnil] at hlen
    simp at hlen
  exact ⟨hempty, (c9_all_zero_shades 10 [] [[]] hempty).2 hne⟩

end CameraAngle
